import Mathlib

/-!
Shallow embedding of the `kon-rad/summarizer` repository core:

* `src/chunker.ts` — `chunkText`, `findSentenceBoundary`, `findWordBoundary`,
  `estimateTokenCount`;
* the two recursive summarizer variants (`src/unnamed/part_000`, the
  token-tracking `recursiveSummarize`, and `src/unnamed/part_001`, the
  non-tracking one), with the external LLM call modelled as an oracle
  (a trace of responses indexed by call number).

Texts are `List Char` (JavaScript strings are sequences of code units; every
string appearing in the repository is plain ASCII, where the two coincide).
The `while` loop of `chunkText` and the recursion of `recursiveSummarize` are
embedded with explicit fuel; `none` means the fuel ran out, so
`∀ fuel, … = none` states non-termination of the source loop.
-/

namespace Summarizer

/-- Whitespace test used by `String.prototype.trim`. JavaScript `trim` removes
all Unicode whitespace; the texts handled in this repository only contain the
ASCII whitespace characters below, on which the two notions agree. -/
def isWsChar (c : Char) : Bool :=
  c == ' ' || c == '\n' || c == '\t' || c == '\r'

/-- JavaScript `s.trim()`: remove leading and trailing whitespace. -/
def trimL (l : List Char) : List Char :=
  ((l.dropWhile isWsChar).reverse.dropWhile isWsChar).reverse

/-- JavaScript `text.slice(a, b)` for `0 ≤ a`, `0 ≤ b` (the only way the
chunker calls it): characters at positions `[a, b)`; empty when `b ≤ a`. -/
def sliceL (text : List Char) (a b : Nat) : List Char :=
  (text.drop a).take (b - a)

/-- chunker.ts lines 130-132: `estimateTokenCount(text) = Math.ceil(text.length / 4)`.
Division of a 53-bit integer by 4 is exact in binary floating point and
`Math.ceil` of it equals the integer ceiling, i.e. `(len + 3) / 4` in `Nat`. -/
def estimateTokenCount (text : List Char) : Nat :=
  (text.length + 3) / 4

/-- Index of the last occurrence of character `c` in `l`
(JavaScript `searchText.lastIndexOf(c)` for a 1-character needle),
`none` standing for the source's `-1`. -/
def lastIdxOf (c : Char) : List Char → Option Nat
  | [] => none
  | a :: rest =>
    match lastIdxOf c rest with
    | some i => some (i + 1)
    | none => if a == c then some 0 else none

/-- chunker.ts line 87: the six sentence enders `'. '`, `'! '`, `'? '`,
`'.\n'`, `'!\n'`, `'?\n'` are exactly the two-character sequences accepted by
this predicate, so the maximum over the six `lastIndexOf` results is the last
position where such a pair starts. -/
def isEnderPair (a b : Char) : Bool :=
  (a == '.' || a == '!' || a == '?') && (b == ' ' || b == '\n')

/-- Largest `i` such that positions `i, i+1` of `l` hold a sentence-ender pair
(the `bestIndex` of chunker.ts lines 89-96). -/
def lastEnderPairIdx : List Char → Option Nat
  | [] => none
  | [_] => none
  | a :: b :: rest =>
    match lastEnderPairIdx (b :: rest) with
    | some i => some (i + 1)
    | none => if isEnderPair a b then some 0 else none

/-- chunker.ts lines 85-103 `findSentenceBoundary`: search
`text.slice(searchStart, searchEnd)` for the last sentence-ender pair and
return `searchStart + bestIndex + 1` (one past the punctuation). -/
def findSentenceBoundary (text : List Char) (searchStart searchEnd : Nat) : Option Nat :=
  (lastEnderPairIdx (sliceL text searchStart searchEnd)).map fun i => searchStart + i + 1

/-- chunker.ts lines 111-122 `findWordBoundary`: look for the last space in the
50 characters before `targetIndex`; `targetIndex - 50` is `Nat` subtraction,
which equals the source's `Math.max(0, targetIndex - 50)`. -/
def findWordBoundary (text : List Char) (targetIndex : Nat) : Option Nat :=
  let searchStart := targetIndex - 50
  (lastIdxOf ' ' (sliceL text searchStart targetIndex)).map fun j => searchStart + j + 1

/-- chunker.ts lines 30-51: the end index of the chunk starting at `s`.
`Math.floor(chunkSize * 0.2)` equals `cs / 5` in `Nat`: `n * 0.2` in binary
doubles has relative error below half an ulp of `0.2`, so its floor agrees
with `⌊n / 5⌋` for every `n` with an exact double representation. -/
def chunkEnd (text : List Char) (cs s : Nat) : Nat :=
  let e0 := s + cs
  if e0 < text.length then
    match findSentenceBoundary text (e0 - cs / 5) e0 with
    | some se => se
    | none =>
      match findWordBoundary text e0 with
      | some wb => wb
      | none => e0
  else text.length

/-- chunker.ts lines 60-67: `nextStart = endIndex - chunkOverlap`; if
`nextStart <= startIndex` force `startIndex = endIndex`, else advance to
`nextStart`. (`e - ov` is `Nat` subtraction; when the source value is
negative it is `≤ startIndex` there and `0 ≤ startIndex` here, so the same
branch is taken and the chosen value agrees.) -/
def chunkNext (text : List Char) (cs ov s : Nat) : Nat :=
  let e := chunkEnd text cs s
  if e - ov ≤ s then e else e - ov

/-- The `while (startIndex < text.length)` loop of chunker.ts lines 28-73,
with explicit fuel, recorded as the list of emitted source windows
`(startIndex, endIndex)`; a window is emitted only when the trimmed slice is
non-empty (lines 54-57). The `break` at lines 70-72 coincides with the loop
condition. `none` means the fuel was exhausted. -/
def chunkTextAux (text : List Char) (cs ov : Nat) : Nat → Nat → Option (List (Nat × Nat))
  | 0, _ => none
  | fuel + 1, s =>
    if s < text.length then
      (chunkTextAux text cs ov fuel (chunkNext text cs ov s)).map fun rest =>
        if (trimL (sliceL text s (chunkEnd text cs s))).isEmpty then rest
        else (s, chunkEnd text cs s) :: rest
    else some []

/-- The function `chunkText` instrumented to return the source windows of the
emitted chunks; the small-text fast path (lines 22-24) yields the single window
covering the whole text. -/
def chunkWindows (fuel : Nat) (text : List Char) (cs ov : Nat) : Option (List (Nat × Nat)) :=
  if text.length ≤ cs then some [(0, text.length)]
  else chunkTextAux text cs ov fuel 0

/-- chunker.ts lines 17-76 `chunkText`: the fast path returns `[text]`
unchanged; otherwise each emitted window is extracted and trimmed
(line 54: `text.slice(startIndex, endIndex).trim()`). -/
def chunkText (fuel : Nat) (text : List Char) (cs ov : Nat) : Option (List (List Char)) :=
  if text.length ≤ cs then some [text]
  else (chunkTextAux text cs ov fuel 0).map fun ws => ws.map fun w => trimL (sliceL text w.1 w.2)

/-- Error messages are character lists, mirroring `Error.message`. -/
abbrev Msg := List Char

/-- Message prefix of the error rethrown by `summarizeChunk`
(part_000 line 80, part_001 line 67): `Failed to summarize chunk: <cause>`. -/
def failedChunkMsg : Msg := "Failed to summarize chunk: ".data

/-- part_000 line 64 / part_001 line 61: `Empty response from LLM`. -/
def emptyResponseMsg : Msg := "Empty response from LLM".data

/-- One response of the external LLM service: either a thrown error (its
message) or a completion content together with `usage.prompt_tokens` and
`usage.completion_tokens` (the source's `|| 0` fallback for missing usage is
absorbed by choosing the numbers directly). -/
abbrev RawResponse := Except Msg (List Char × Nat × Nat)

/-- The external service as a trace: the `k`-th call of a run, with request
text `t`, receives `oracle k t`. The service is a black box that may fail;
a trace fixes one deterministic behaviour per run, which is how the spec's
synthetic stubs are expressed. -/
abbrev Oracle := Nat → List Char → RawResponse

/-- Result of one successful `summarizeChunk` call in part_000. -/
structure SCRes where
  summary : List Char
  inputTokens : Nat
  outputTokens : Nat
deriving DecidableEq, Repr

/-- part_000 lines 45-82 `summarizeChunk`: take the completion content, trim
it, throw `Empty response from LLM` if empty; any throw inside the `try`
(including that one) is caught and rethrown as
`Failed to summarize chunk: <message>`. Token usage is read from the
response. -/
def summarizeChunk000 (r : RawResponse) : Except Msg SCRes :=
  match r with
  | .error m => .error (failedChunkMsg ++ m)
  | .ok (content, itk, otk) =>
    let s := trimL content
    if s.isEmpty then .error (failedChunkMsg ++ emptyResponseMsg)
    else .ok { summary := s, inputTokens := itk, outputTokens := otk }

/-- part_001 lines 42-69 `summarizeChunk`: same control flow, but the call
returns only the summary string. -/
def summarizeChunk001 (r : RawResponse) : Except Msg (List Char) :=
  match r with
  | .error m => .error (failedChunkMsg ++ m)
  | .ok (content, _, _) =>
    let s := trimL content
    if s.isEmpty then .error (failedChunkMsg ++ emptyResponseMsg)
    else .ok s

/-- part_000 lines 121-148: summarize every chunk sequentially, accumulating
summaries and the level-local token counters, threading the call counter `k`.
The source stages the iteration in batches of `BATCH_SIZE = 10`
(lines 127-145), reading each chunk exactly once in document order, so the
double loop is the sequential traversal below; the `batch[i] = ''` write
(line 143) happens after the only read of `batch[i]` and has no observable
effect. An error aborts with the counter after the failing call. -/
def summarizeAll000 (oracle : Oracle) :
    List (List Char) → Nat → Except (Msg × Nat) (List (List Char) × Nat × Nat × Nat)
  | [], k => .ok ([], 0, 0, k)
  | c :: rest, k =>
    match summarizeChunk000 (oracle k c) with
    | .error m => .error (m, k + 1)
    | .ok r =>
      match summarizeAll000 oracle rest (k + 1) with
      | .error e => .error e
      | .ok (ss, itk, otk, k2) =>
        .ok (r.summary :: ss, r.inputTokens + itk, r.outputTokens + otk, k2)

/-- part_001 lines 103-109: the same sequential chunk loop without token
tracking or batching. -/
def summarizeAll001 (oracle : Oracle) :
    List (List Char) → Nat → Except (Msg × Nat) (List (List Char) × Nat)
  | [], k => .ok ([], k)
  | c :: rest, k =>
    match summarizeChunk001 (oracle k c) with
    | .error m => .error (m, k + 1)
    | .ok s =>
      match summarizeAll001 oracle rest (k + 1) with
      | .error e => .error e
      | .ok (ss, k2) => .ok (s :: ss, k2)

/-- Separator of `chunkSummaries.join('\n\n')` (part_000 line 151,
part_001 line 112). -/
def sepNN : List Char := ['\n', '\n']

/-- Result record of part_000's `recursiveSummarize`. -/
structure Res000 where
  summary : List Char
  levels : Nat
  chunks : Nat
  inputTokens : Nat
  outputTokens : Nat
deriving DecidableEq, Repr

/-- Result record of part_001's `recursiveSummarize`. -/
structure Res001 where
  summary : List Char
  levels : Nat
  chunks : Nat
deriving DecidableEq, Repr

/-- part_000 lines 87-184 `recursiveSummarize`. `cs`/`ov` are
`options.chunkSize`/`options.chunkOverlap`; `cf` is the fuel given to each
`chunkText` call and `fuel` bounds the recursion depth (`none` = some loop or
recursion failed to finish within the fuel). The base-case test
`estimatedTokens <= maxTokens` with `maxTokens = chunkSize / 4` (float
division by 4, exact) is the integer test `4 * estimateTokenCount text ≤ cs`.
Crucially, line 148 `chunks.length = 0;` empties the `chunks` array before
the recursion test `chunks.length > 1` (line 158) and before the
`chunks` counts returned at lines 164 and 180: this is `chunksLen := 0`
below. The call counter `k` is threaded through every external call. -/
def reduce000 (oracle : Oracle) (cs ov cf : Nat) :
    Nat → List Char → Nat → Nat → Option (Except (Msg × Nat) (Res000 × Nat))
  | 0, _, _, _ => none
  | fuel + 1, text, level, k =>
    if 4 * estimateTokenCount text ≤ cs then
      some (match summarizeChunk000 (oracle k text) with
        | .error m => .error (m, k + 1)
        | .ok r => .ok ({ summary := r.summary, levels := level, chunks := 1,
                          inputTokens := r.inputTokens, outputTokens := r.outputTokens }, k + 1))
    else
      match chunkText cf text cs ov with
      | none => none
      | some chunks =>
        match summarizeAll000 oracle chunks k with
        | .error e => some (.error e)
        | .ok (ss, itk, otk, k2) =>
          let combined := List.intercalate sepNN ss
          let chunksLen : Nat := 0
          if 4 * estimateTokenCount combined > cs ∧ chunksLen > 1 then
            match reduce000 oracle cs ov cf fuel combined (level + 1) k2 with
            | none => none
            | some (.error e) => some (.error e)
            | some (.ok (r, k3)) =>
              some (.ok ({ summary := r.summary, levels := r.levels,
                           chunks := chunksLen + r.chunks,
                           inputTokens := itk + r.inputTokens,
                           outputTokens := otk + r.outputTokens }, k3))
          else
            some (match summarizeChunk000 (oracle k2 combined) with
              | .error m => .error (m, k2 + 1)
              | .ok fr => .ok ({ summary := fr.summary, levels := level, chunks := chunksLen,
                                 inputTokens := itk + fr.inputTokens,
                                 outputTokens := otk + fr.outputTokens }, k2 + 1))

/-- part_001 lines 74-138 `recursiveSummarize`: same structure, no token
tracking, and no clearing of `chunks`, so the recursion test and the returned
counts use the real `chunks.length`. -/
def reduce001 (oracle : Oracle) (cs ov cf : Nat) :
    Nat → List Char → Nat → Nat → Option (Except (Msg × Nat) (Res001 × Nat))
  | 0, _, _, _ => none
  | fuel + 1, text, level, k =>
    if 4 * estimateTokenCount text ≤ cs then
      some (match summarizeChunk001 (oracle k text) with
        | .error m => .error (m, k + 1)
        | .ok s => .ok ({ summary := s, levels := level, chunks := 1 }, k + 1))
    else
      match chunkText cf text cs ov with
      | none => none
      | some chunks =>
        match summarizeAll001 oracle chunks k with
        | .error e => some (.error e)
        | .ok (ss, k2) =>
          let combined := List.intercalate sepNN ss
          if 4 * estimateTokenCount combined > cs ∧ chunks.length > 1 then
            match reduce001 oracle cs ov cf fuel combined (level + 1) k2 with
            | none => none
            | some (.error e) => some (.error e)
            | some (.ok (r, k3)) =>
              some (.ok ({ summary := r.summary, levels := r.levels,
                           chunks := chunks.length + r.chunks }, k3))
          else
            some (match summarizeChunk001 (oracle k2 combined) with
              | .error m => .error (m, k2 + 1)
              | .ok fs => .ok ({ summary := fs, levels := level,
                                 chunks := chunks.length }, k2 + 1))

/-- part_000 lines 18-27 `SummarizationResult`. -/
structure SummarizationResult where
  summary : List Char
  originalLength : Nat
  summaryLength : Nat
  chunksProcessed : Nat
  recursionLevels : Nat
  inputTokens : Nat
  outputTokens : Nat
  totalTokens : Nat
deriving DecidableEq, Repr

/-- part_000 lines 189-237 `summarizeText`: call `recursiveSummarize(text,
client, options)` (level 1, fresh call trace) and wrap the result. It
performs no validation of `chunkSize`/`chunkOverlap`. -/
def summarizeText000 (oracle : Oracle) (cs ov cf fuel : Nat) (text : List Char) :
    Option (Except (Msg × Nat) (SummarizationResult × Nat)) :=
  (reduce000 oracle cs ov cf fuel text 1 0).map fun e =>
    e.map fun p =>
      ({ summary := p.1.summary, originalLength := text.length,
         summaryLength := p.1.summary.length, chunksProcessed := p.1.chunks,
         recursionLevels := p.1.levels, inputTokens := p.1.inputTokens,
         outputTokens := p.1.outputTokens,
         totalTokens := p.1.inputTokens + p.1.outputTokens }, p.2)

/-- The validation performed by the callers of `summarizeText` before any
summarization work (main.ts of both variants, lines 269-275 / 391-398 of the
concatenated sources): reject empty or whitespace-only `text` and a missing
API key. Neither caller, nor the `/api/summarize` endpoint (which checks only
`!text`), inspects `chunkSize` or `chunkOverlap`. -/
def inputAccepted (text : List Char) (hasApiKey : Bool) : Bool :=
  !(trimL text).isEmpty && hasApiKey

/-- The float comparison `estimatedTokens <= maxTokens` with
`maxTokens = options.chunkSize / 4` (part_000 lines 98-101): division of an
integer double by 4 is exact, so the comparison is over exact rationals. -/
def maxTokensQ (cs : Nat) : ℚ :=
  (cs : ℚ) / 4

/-! ### Concrete inputs used in the evaluations -/

/-- The 32-character text `"a "` followed by 30 `'b'`s. On it, with
`chunkSize = 10`, the word-boundary fallback of `chunkText` keeps returning
index 2 (one past the only space), so `endIndex ≤ startIndex` and the loop
stops making progress. -/
def badT : List Char := 'a' :: ' ' :: List.replicate 30 'b'

/-- Twenty-four `'t'`s: with `chunkSize = 8`, `chunkOverlap = 0` this splits into the
three chunks `"tttttttt"`. -/
def t24 : List Char := List.replicate 24 't'

/-- Four `'t'`s: a small non-empty text. -/
def t4 : List Char := List.replicate 4 't'

/-- Stub service returning the fixed summary `"sss"` with 10 input and
5 output tokens on every call. -/
def stub3 : Oracle := fun _ _ => .ok ("sss".data, 10, 5)

/-- Stub service returning the fixed summary `"s"` with 10 input and
5 output tokens on every call. -/
def stub1 : Oracle := fun _ _ => .ok ("s".data, 10, 5)

/-- A concrete failure cause. -/
def boomMsg : Msg := "boom".data

/-- Stub service whose `f`-th call throws `boom` and whose other calls
succeed with the fixed summary `"sss"`. -/
def failAt (f : Nat) : Oracle :=
  fun k _ => if k = f then .error boomMsg else .ok ("sss".data, 1, 1)

/-! ### Non-termination of the chunker loop on specific inputs -/

/-- On `badT` with `chunkSize = 10`, `chunkOverlap = 0`, the loop state
`startIndex = 2` maps to itself, emitting nothing, so the loop never ends. -/
theorem chunkAux_badT_ov0_stuck : ∀ f, chunkTextAux badT 10 0 f 2 = none := by
  intro f
  induction f with
  | zero => rfl
  | succ n ih =>
    simp only [chunkTextAux]
    rw [if_pos (by decide : (2 : Nat) < badT.length)]
    rw [show chunkNext badT 10 0 2 = 2 from by decide]
    rw [ih]
    rfl

/-- From `startIndex = 0` the first iteration moves to the stuck state 2. -/
theorem chunkAux_badT_ov0_from0 : ∀ f, chunkTextAux badT 10 0 f 0 = none := by
  intro f
  cases f with
  | zero => rfl
  | succ n =>
    simp only [chunkTextAux]
    rw [if_pos (by decide : (0 : Nat) < badT.length)]
    rw [show chunkNext badT 10 0 0 = 2 from by decide]
    rw [chunkAux_badT_ov0_stuck n]
    rfl

/-- Same stuck state with the valid overlap 3. -/
theorem chunkAux_badT_ov3_stuck : ∀ f, chunkTextAux badT 10 3 f 2 = none := by
  intro f
  induction f with
  | zero => rfl
  | succ n ih =>
    simp only [chunkTextAux]
    rw [if_pos (by decide : (2 : Nat) < badT.length)]
    rw [show chunkNext badT 10 3 2 = 2 from by decide]
    rw [ih]
    rfl

/-- From `startIndex = 0` with overlap 3 the loop also reaches state 2. -/
theorem chunkAux_badT_ov3_from0 : ∀ f, chunkTextAux badT 10 3 f 0 = none := by
  intro f
  cases f with
  | zero => rfl
  | succ n =>
    simp only [chunkTextAux]
    rw [if_pos (by decide : (0 : Nat) < badT.length)]
    rw [show chunkNext badT 10 3 0 = 2 from by decide]
    rw [chunkAux_badT_ov3_stuck n]
    rfl

/-- With `chunkSize = 0` and non-empty text, `endIndex` is computed as
`startIndex` itself and the state 0 maps to itself. -/
theorem chunkAux_t4_cs0_stuck : ∀ f, chunkTextAux t4 0 0 f 0 = none := by
  intro f
  induction f with
  | zero => rfl
  | succ n ih =>
    simp only [chunkTextAux]
    rw [if_pos (by decide : (0 : Nat) < t4.length)]
    rw [show chunkNext t4 0 0 0 = 0 from by decide]
    rw [ih]
    rfl

/-- The call `chunkText` on `t4` with `chunkSize = 0` exhausts any fuel. -/
theorem chunkText_t4_cs0_none : ∀ cf, chunkText cf t4 0 0 = none := by
  intro cf
  rw [chunkText, if_neg (by decide : ¬ t4.length ≤ 0), chunkAux_t4_cs0_stuck cf]
  rfl

/-! ### Bounds on the boundary searches and emitted windows -/

/-- Unprimed restatement of the `Option.map` computation rule on `some`. -/
theorem optionMapSomeEq {α β : Type} (f : α → β) (a : α) :
    (Option.some a).map f = some (f a) := rfl

/-- Inversion of `Option.map … = some …`. -/
theorem optionMapEqSome {α β : Type} {f : α → β} {x : Option α} {b : β}
    (h : x.map f = some b) : ∃ a, x = some a ∧ f a = b := by
  cases x with
  | none => simp at h
  | some a =>
    refine ⟨a, rfl, ?_⟩
    simpa using h

theorem lastIdxOf_lt {c : Char} : ∀ {l : List Char} {i : Nat}, lastIdxOf c l = some i → i < l.length := by
  intro l
  induction l with
  | nil => intro i h; simp [lastIdxOf] at h
  | cons a rest ih =>
    intro i h
    rw [lastIdxOf] at h
    revert h
    cases h2 : lastIdxOf c rest with
    | some j =>
      intro h
      have := ih h2
      simp only [Option.some.injEq] at h
      simp only [List.length_cons]
      omega
    | none =>
      intro h
      by_cases ha : a == c
      · rw [if_pos ha] at h
        simp only [Option.some.injEq] at h
        simp only [List.length_cons]
        omega
      · rw [if_neg ha] at h
        exact absurd h (by simp)

theorem lastEnderPairIdx_lt : ∀ {l : List Char} {i : Nat}, lastEnderPairIdx l = some i → i + 1 < l.length := by
  intro l
  induction l with
  | nil => intro i h; simp [lastEnderPairIdx] at h
  | cons a rest ih =>
    intro i h
    cases rest with
    | nil => simp [lastEnderPairIdx] at h
    | cons b rest2 =>
      rw [lastEnderPairIdx] at h
      revert h
      cases h2 : lastEnderPairIdx (b :: rest2) with
      | some j =>
        intro h
        have := ih h2
        simp only [Option.some.injEq] at h
        simp only [List.length_cons] at this ⊢
        omega
      | none =>
        intro h
        by_cases hp : isEnderPair a b
        · rw [if_pos hp] at h
          simp only [Option.some.injEq] at h
          simp only [List.length_cons]
          omega
        · rw [if_neg hp] at h
          exact absurd h (by simp)

theorem sliceL_length_le (text : List Char) (a b : Nat) : (sliceL text a b).length ≤ b - a := by
  simp only [sliceL, List.length_take, List.length_drop]
  omega

theorem trimL_length_le (l : List Char) : (trimL l).length ≤ l.length := by
  simp only [trimL, List.length_reverse]
  calc ((l.dropWhile isWsChar).reverse.dropWhile isWsChar).length
      ≤ (l.dropWhile isWsChar).reverse.length := (List.dropWhile_sublist _).length_le
    _ = (l.dropWhile isWsChar).length := List.length_reverse _
    _ ≤ l.length := (List.dropWhile_sublist _).length_le

theorem findSentenceBoundary_le {text : List Char} {a b r : Nat}
    (h : findSentenceBoundary text a b = some r) : r ≤ b := by
  rw [findSentenceBoundary] at h
  cases h2 : lastEnderPairIdx (sliceL text a b) with
  | none => rw [h2] at h; exact absurd h (by simp)
  | some i =>
    rw [h2] at h
    simp only [optionMapSomeEq, Option.some.injEq] at h
    have h3 := lastEnderPairIdx_lt h2
    have h4 := sliceL_length_le text a b
    omega

theorem findWordBoundary_le {text : List Char} {t r : Nat}
    (h : findWordBoundary text t = some r) : r ≤ t := by
  rw [findWordBoundary] at h
  cases h2 : lastIdxOf ' ' (sliceL text (t - 50) t) with
  | none => rw [h2] at h; exact absurd h (by simp)
  | some j =>
    rw [h2] at h
    simp only [optionMapSomeEq, Option.some.injEq] at h
    have h3 := lastIdxOf_lt h2
    have h4 := sliceL_length_le text (t - 50) t
    omega

theorem chunkEnd_le {text : List Char} {cs s : Nat} (h : s + cs < text.length) :
    chunkEnd text cs s ≤ s + cs := by
  rw [chunkEnd]
  simp only [if_pos h]
  cases h2 : findSentenceBoundary text (s + cs - cs / 5) (s + cs) with
  | some se => exact findSentenceBoundary_le h2
  | none =>
    cases h3 : findWordBoundary text (s + cs) with
    | some wb => exact findWordBoundary_le h3
    | none => exact Nat.le_refl _

theorem chunkEnd_eq_length {text : List Char} {cs s : Nat} (h : ¬ s + cs < text.length) :
    chunkEnd text cs s = text.length := by
  rw [chunkEnd]
  simp only [if_neg h]

/-- Every window emitted by the chunker loop is strictly shorter than the
whole text, provided the text exceeds the chunk size (the only situation in
which the loop runs). -/
theorem chunkAux_window_lt {text : List Char} {cs ov : Nat} (hcs : cs < text.length) :
    ∀ fuel s ws, chunkTextAux text cs ov fuel s = some ws →
    ∀ w ∈ ws, w.2 - w.1 < text.length := by
  intro fuel
  induction fuel with
  | zero => intro s ws h; simp [chunkTextAux] at h
  | succ n ih =>
    intro s ws h w hw
    rw [chunkTextAux] at h
    by_cases hs : s < text.length
    · rw [if_pos hs] at h
      cases hrec : chunkTextAux text cs ov n (chunkNext text cs ov s) with
      | none => rw [hrec] at h; exact absurd h (by simp)
      | some rest =>
        rw [hrec] at h
        simp only [optionMapSomeEq, Option.some.injEq] at h
        have hbound : chunkEnd text cs s - s < text.length := by
          by_cases hin : s + cs < text.length
          · have := chunkEnd_le hin
            omega
          · have := chunkEnd_eq_length hin
            omega
        by_cases hemp : (trimL (sliceL text s (chunkEnd text cs s))).isEmpty
        · rw [if_pos hemp] at h
          subst h
          exact ih _ rest hrec w hw
        · rw [if_neg hemp] at h
          subst h
          rcases List.mem_cons.mp hw with h1 | h1
          · subst h1; exact hbound
          · exact ih _ rest hrec w h1
    · rw [if_neg hs] at h
      simp only [Option.some.injEq] at h
      subst h
      simp at hw

/-! ### Coverage of the input by emitted windows -/

/-- A slice whose trim is empty consists of whitespace only. -/
theorem trimL_eq_nil_all_ws {l : List Char} (h : trimL l = []) :
    ∀ c ∈ l, isWsChar c = true := by
  intro c hc
  have h1 : (l.dropWhile isWsChar).reverse.dropWhile isWsChar = [] := by
    have := congrArg List.reverse h
    simpa [trimL] using this
  have h2 := List.dropWhile_eq_nil_iff.mp h1
  have h3 : ∀ x ∈ l.dropWhile isWsChar, isWsChar x = true := by
    intro x hx
    exact h2 x (by simpa using hx)
  have h4 : c ∈ l.takeWhile isWsChar ++ l.dropWhile isWsChar := by
    rw [List.takeWhile_append_dropWhile]
    exact hc
  rcases List.mem_append.mp h4 with h5 | h5
  · exact List.mem_takeWhile_imp h5
  · exact h3 c h5

/-- The character at position `p ∈ [s, e)` of `text` belongs to
`text.slice(s, e)`. -/
theorem getElem_mem_sliceL (text : List Char) {s e p : Nat}
    (hsp : s ≤ p) (hpe : p < e) (hp : p < text.length) :
    text.get ⟨p, hp⟩ ∈ sliceL text s e := by
  have h1 : p - s < (sliceL text s e).length := by
    simp only [sliceL, List.length_take, List.length_drop]
    omega
  have h1a : p - s < e - s := by omega
  have h1b : s + (p - s) < text.length := by omega
  have h2 : (sliceL text s e).get ⟨p - s, h1⟩ = text.get ⟨p, hp⟩ := by
    simp only [sliceL, List.get_eq_getElem]
    rw [List.getElem_take, List.getElem_drop]
    congr 1
    omega
  rw [← h2]
  exact List.get_mem _ _ h1

/-- Every non-whitespace character of `text` at position `≥ s` lies inside
one of the windows emitted by the loop started at `s`, whenever the loop
terminates. -/
theorem chunkAux_cover {text : List Char} {cs ov : Nat} :
    ∀ fuel s ws, chunkTextAux text cs ov fuel s = some ws →
    ∀ p (hp : p < text.length), s ≤ p → isWsChar (text.get ⟨p, hp⟩) = false →
    ∃ w ∈ ws, w.1 ≤ p ∧ p < w.2 := by
  intro fuel
  induction fuel with
  | zero => intro s ws h; simp [chunkTextAux] at h
  | succ n ih =>
    intro s ws h p hp hsp hnws
    rw [chunkTextAux] at h
    by_cases hs : s < text.length
    · rw [if_pos hs] at h
      cases hrec : chunkTextAux text cs ov n (chunkNext text cs ov s) with
      | none => rw [hrec] at h; exact absurd h (by simp)
      | some rest =>
        rw [hrec] at h
        simp only [optionMapSomeEq, Option.some.injEq] at h
        have hnext_le : chunkNext text cs ov s ≤ chunkEnd text cs s := by
          rw [chunkNext]
          split
          · exact Nat.le_refl _
          · omega
        by_cases hpe : p < chunkEnd text cs s
        · by_cases hemp : (trimL (sliceL text s (chunkEnd text cs s))).isEmpty
          · have hws := trimL_eq_nil_all_ws (List.isEmpty_iff.mp hemp) _
              (getElem_mem_sliceL text hsp hpe hp)
            rw [hws] at hnws
            cases hnws
          · rw [if_neg hemp] at h
            subst h
            exact ⟨(s, chunkEnd text cs s), by simp, hsp, hpe⟩
        · have hcov := ih _ rest hrec p hp (by omega) hnws
          obtain ⟨w, hw, hwp⟩ := hcov
          refine ⟨w, ?_, hwp⟩
          by_cases hemp : (trimL (sliceL text s (chunkEnd text cs s))).isEmpty
          · rw [if_pos hemp] at h
            subst h
            exact hw
          · rw [if_neg hemp] at h
            subst h
            exact List.mem_cons_of_mem _ hw
    · rw [if_neg hs] at h
      simp only [Option.some.injEq] at h
      subst h
      omega

/-! ### Claim C1 -/

/-- C1. The claim states that `chunkText` terminates for every text, every
`chunkSize ≥ 1` and every `chunkOverlap ≥ 0`, within
`text.length / max(1, chunkSize - chunkOverlap)` iterations, because forward
progress of `startIndex` is enforced at every step. The code violates this:
on the 32-character text `badT = "a " ++ "b"*30` with `chunkSize = 10`,
`chunkOverlap = 0`, the word-boundary fallback returns index 2 (one past the
only space, which lies *before* the current `startIndex`), `endIndex` becomes
2, and the forced-progress assignment `startIndex = endIndex` leaves
`startIndex = 2` forever. The loop therefore exhausts any amount of fuel:
`chunkText` never returns. -/
theorem c1_chunkText_divergence : ∀ fuel, chunkText fuel badT 10 0 = none := by
  intro fuel
  rw [chunkText, if_neg (by decide : ¬ badT.length ≤ 10), chunkAux_badT_ov0_from0 fuel]
  rfl

/-! ### Claim C3 -/

/-- C3 counterexample. The coverage claim quantifies over all valid
configurations (`chunkSize ≥ 1`, `0 ≤ chunkOverlap < chunkSize`). At the valid
configuration `chunkSize = 10`, `chunkOverlap = 3` on `badT` the loop never
terminates (100 iterations is far beyond the claimed worst-case bound
`⌈32 / 7⌉ = 5`), so no chunk is ever emitted and in particular the
non-whitespace character `'a'` at position 0 is covered by no emitted
window. -/
theorem c3_counterexample_no_chunks_emitted :
    chunkWindows 100 badT 10 3 = none ∧ isWsChar 'a' = false ∧ badT.take 1 = ['a'] := by
  refine ⟨?_, by decide, by decide⟩
  rw [chunkWindows, if_neg (by decide : ¬ badT.length ≤ 10)]
  exact chunkAux_badT_ov3_from0 100

/-- C3, amended. Whenever `chunkText` terminates (the fuelled loop returns a
result), every non-whitespace character of the input lies inside the source
window `[startIndex, endIndex)` of at least one emitted chunk; characters of
dropped windows are all whitespace, i.e. exactly the trim/whitespace carve-out
of the claim. (On the fast path the single window covers the whole text.) -/
theorem c3_coverage_when_terminating :
    ∀ (fuel : Nat) (text : List Char) (cs ov : Nat) (ws : List (Nat × Nat)),
    chunkWindows fuel text cs ov = some ws →
    ∀ p (hp : p < text.length), isWsChar (text.get ⟨p, hp⟩) = false →
    ∃ w ∈ ws, w.1 ≤ p ∧ p < w.2 := by
  intro fuel text cs ov ws h p hp hnws
  rw [chunkWindows] at h
  by_cases hfast : text.length ≤ cs
  · rw [if_pos hfast] at h
    simp only [Option.some.injEq] at h
    subst h
    exact ⟨(0, text.length), by simp, by omega, hp⟩
  · rw [if_neg hfast] at h
    exact chunkAux_cover fuel 0 ws h p hp (Nat.zero_le p) hnws

/-- C3 witness: instantiating the coverage theorem on the two-character text
`"ab"` with `chunkSize = 1`, whose windows are `[(0,1), (1,2)]`, at
position 0. -/
theorem c3_coverage_witness :
    ∃ w ∈ [((0 : Nat), (1 : Nat)), (1, 2)], w.1 ≤ 0 ∧ 0 < w.2 :=
  c3_coverage_when_terminating 20 ('a' :: 'b' :: []) 1 0 [(0, 1), (1, 2)] rfl 0
    (by decide) (by decide)

/-! ### Claim C7 -/

/-- C7. `chunkText` returns the single-element list `[text]` — the text
unchanged, with no trimming — exactly when `text.length ≤ chunkSize`
(whatever the fuel and overlap); and on the empty text with
`{chunkSize := 100, chunkOverlap := 10}` it returns `[""]`, a single empty
chunk. The forward direction is the fast path; conversely, when
`text.length > chunkSize` every emitted chunk is the trim of a window
strictly shorter than the text, so no output can equal `[text]`. -/
theorem c7_single_chunk_identity :
    (∀ (fuel : Nat) (text : List Char) (cs ov : Nat),
      chunkText fuel text cs ov = some [text] ↔ text.length ≤ cs)
    ∧ chunkText 0 [] 100 10 = some [[]] := by
  constructor
  · intro fuel text cs ov
    constructor
    · intro h
      by_contra hlen
      push_neg at hlen
      rw [chunkText, if_neg (by omega)] at h
      obtain ⟨ws, hws, hmap⟩ := optionMapEqSome h
      cases ws with
      | nil => simp at hmap
      | cons w rest =>
        cases rest with
        | cons w2 rest2 => simp at hmap
        | nil =>
          simp only [List.map_cons, List.map_nil, List.cons.injEq, and_true] at hmap
          have hlt := chunkAux_window_lt hlen fuel 0 _ hws w (by simp)
          have h1 : (trimL (sliceL text w.1 w.2)).length ≤ w.2 - w.1 :=
            le_trans (trimL_length_le _) (sliceL_length_le text w.1 w.2)
          rw [hmap] at h1
          omega
    · intro h
      rw [chunkText, if_pos h]
  · rfl

/-! ### Claim C4 -/

/-- C4. The claim states that configurations with non-positive `chunkSize`
(or `chunkOverlap ≥ chunkSize`) are rejected at the boundary
(`summarizeText` or its callers) before any external call. No such check
exists: the caller validation (`inputAccepted`, which checks only text
non-emptiness and API-key presence) accepts the non-empty text `t4` with
`chunkSize = 0`, and `summarizeText` proceeds into chunking, where
`chunkText` diverges — for every oracle and every amount of fuel the
pipeline never completes (and thus also never rejects). -/
theorem c4_config_not_rejected :
    inputAccepted t4 true = true
    ∧ ∀ (oracle : Oracle) (fuel cf : Nat), summarizeText000 oracle 0 0 cf fuel t4 = none := by
  refine ⟨by decide, ?_⟩
  intro oracle fuel cf
  rw [summarizeText000]
  have h : reduce000 oracle 0 0 cf fuel t4 1 0 = none := by
    cases fuel with
    | zero => rfl
    | succ n =>
      rw [reduce000, if_neg (by decide : ¬ 4 * estimateTokenCount t4 ≤ 0),
        chunkText_t4_cs0_none cf]
  rw [h]
  rfl

/-! ### Claim C2 -/

/-- C2. The claim: with a fixed-length stub, the reducer recurses exactly
when the combined summaries exceed `maxTokens` and more than one chunk was
produced, and on an input requiring exactly two levels it reports
`levels = 2` and `chunks` equal to the sum of per-level chunk counts.
The scenario: `t24` (24 chars), `chunkSize = 8`, `chunkOverlap = 0`, stub
summary `"sss"`. Level 1 yields 3 chunks whose combined summaries
(13 chars) still exceed `maxTokens = 2`; level 2 yields 2 chunks whose
combined summaries (8 chars) fit. part_001 behaves exactly as claimed:
`levels = 2`, `chunks = 3 + 2 = 5` (6 calls). part_000 violates the claim:
`chunks.length = 0` (line 148) empties the array before the recursion
test `chunks.length > 1` (line 158), so it never recurses and reports
`levels = 1`, `chunks = 0` (4 calls). -/
theorem c2_two_level_report_eval :
    reduce001 stub3 8 0 30 5 t24 1 0 =
      some (Except.ok ({ summary := "sss".data, levels := 2, chunks := 5 }, 6))
    ∧ reduce000 stub3 8 0 30 5 t24 1 0 =
      some (Except.ok ({ summary := "sss".data, levels := 1, chunks := 0,
                         inputTokens := 40, outputTokens := 20 }, 4)) := by
  constructor
  · rfl
  · rfl

/-! ### Claim C8 -/

/-- C8. With a stub reporting `inputTokens = 10`, `outputTokens = 5` on every
call, a single-level reduction that summarizes 3 chunks and makes 1 combine
call returns `inputTokens = 40 = 4 × 10` and `outputTokens = 20 = 4 × 5`:
the counters are the sums of the per-call reported counts. (The scenario:
`t24` with `chunkSize = 8`, stub summary `"s"`, whose combined summaries of
7 characters fit in `maxTokens`, so level 1 is the only level; the `chunks
:= 0` component reflects part_000's cleared `chunks.length`, which does not
affect the token counters.) -/
theorem c8_token_accumulation_eval :
    reduce000 stub1 8 0 30 5 t24 1 0 =
      some (Except.ok ({ summary := "s".data, levels := 1, chunks := 0,
                         inputTokens := 40, outputTokens := 20 }, 4)) := by
  rfl

/-! ### Claim C5 -/

/-- C5. In the chunk-summarizing loop of part_000's `recursiveSummarize`
(and therefore at any recursion level, since the loop result is threaded
monadically), if the calls for chunks `0, …, i-1` succeed and the external
call for chunk `i` throws with `cause`, then the loop aborts immediately with
the error `Failed to summarize chunk: <cause>` — the original cause is
retrievable as the message suffix — and the final call counter is
`k0 + i + 1`: exactly the calls `k0, …, k0 + i` were issued, so no call is
made for chunk `i + 1` or later, and (since `reduce000` only reaches the
combine call after an `ok` from this loop) the combine call is never made.
Moreover a call returning content that trims to empty is likewise a failure,
with the distinct `Empty response from LLM` cause, not skipped. -/
theorem c5_failure_propagation :
    (∀ (oracle : Oracle) (chunks : List (List Char)) (k0 i : Nat) (cause : Msg),
      i < chunks.length →
      (∀ j, j < i → ∃ r, summarizeChunk000 (oracle (k0 + j) (chunks.getD j [])) = Except.ok r) →
      oracle (k0 + i) (chunks.getD i []) = Except.error cause →
      summarizeAll000 oracle chunks k0 = Except.error (failedChunkMsg ++ cause, k0 + i + 1))
    ∧ (∀ (content : List Char) (itk otk : Nat), trimL content = [] →
      summarizeChunk000 (Except.ok (content, itk, otk)) =
        Except.error (failedChunkMsg ++ emptyResponseMsg)) := by
  constructor
  · intro oracle chunks
    induction chunks with
    | nil => intro k0 i cause hi; simp at hi
    | cons c rest ih =>
      intro k0 i cause hi hok herr
      cases i with
      | zero =>
        have herr2 : oracle k0 c = Except.error cause := by
          simpa using herr
        rw [summarizeAll000, herr2]
        rfl
      | succ j =>
        obtain ⟨r, hr⟩ := hok 0 (by omega)
        have hr2 : summarizeChunk000 (oracle k0 c) = Except.ok r := by
          simpa using hr
        rw [summarizeAll000, hr2]
        have hok2 : ∀ j2, j2 < j →
            ∃ r2, summarizeChunk000 (oracle (k0 + 1 + j2) (rest.getD j2 [])) = Except.ok r2 := by
          intro j2 hj2
          obtain ⟨r2, hr3⟩ := hok (j2 + 1) (by omega)
          refine ⟨r2, ?_⟩
          have e1 : k0 + (j2 + 1) = k0 + 1 + j2 := by omega
          rw [e1, List.getD_cons_succ] at hr3
          exact hr3
        have herr3 : oracle (k0 + 1 + j) (rest.getD j []) = Except.error cause := by
          have e2 : k0 + (j + 1) = k0 + 1 + j := by omega
          rw [e2, List.getD_cons_succ] at herr
          exact herr
        have hih := ih (k0 + 1) j cause (by simpa using hi) hok2 herr3
        rw [hih]
        have e3 : k0 + 1 + j + 1 = k0 + (j + 1) + 1 := by omega
        rw [e3]
  · intro content itk otk h
    rw [summarizeChunk000]
    simp [h]

/-- C5 witness: three chunks, the second call throwing `boom`; the loop
aborts with message `Failed to summarize chunk: boom` after exactly two
calls, and an empty-content response is a `Failed to summarize chunk: Empty
response from LLM` failure. -/
theorem c5_failure_propagation_witness :
    summarizeAll000 (failAt 1) ["aa".data, "bb".data, "cc".data] 0 =
      Except.error (failedChunkMsg ++ boomMsg, 2)
    ∧ summarizeChunk000 (Except.ok ([' '], 3, 4)) =
      Except.error (failedChunkMsg ++ emptyResponseMsg) := by
  constructor
  · exact c5_failure_propagation.1 (failAt 1) ["aa".data, "bb".data, "cc".data] 0 1 boomMsg
      (by decide)
      (by
        intro j hj
        have hj0 : j = 0 := by omega
        subst hj0
        exact ⟨{ summary := "sss".data, inputTokens := 1, outputTokens := 1 }, rfl⟩)
      rfl
  · exact c5_failure_propagation.2 [' '] 3 4 (by decide)

/-! ### Claim C9 -/

/-- Every error produced by `summarizeChunk` is the fail prefix followed by
the original cause (the thrown message, or `Empty response from LLM`). -/
theorem summarizeChunk000_error_shape {r : RawResponse} {m : Msg}
    (h : summarizeChunk000 r = Except.error m) : ∃ cause, m = failedChunkMsg ++ cause := by
  cases r with
  | error msg =>
    refine ⟨msg, ?_⟩
    rw [summarizeChunk000] at h
    simpa using h.symm
  | ok p =>
    obtain ⟨c, i, o⟩ := p
    rw [summarizeChunk000] at h
    by_cases hemp : (trimL c).isEmpty
    · refine ⟨emptyResponseMsg, ?_⟩
      rw [if_pos hemp] at h
      simpa using h.symm
    · rw [if_neg hemp] at h
      exact absurd h (by simp)

/-- Every error of the chunk loop comes from a `summarizeChunk` call. -/
theorem summarizeAll000_error_shape {oracle : Oracle} :
    ∀ {chunks : List (List Char)} {k : Nat} {m : Msg} {n : Nat},
    summarizeAll000 oracle chunks k = Except.error (m, n) →
    ∃ cause, m = failedChunkMsg ++ cause := by
  intro chunks
  induction chunks with
  | nil => intro k m n h; simp [summarizeAll000] at h
  | cons c rest ih =>
    intro k m n h
    rw [summarizeAll000] at h
    revert h
    cases hsc : summarizeChunk000 (oracle k c) with
    | error m2 =>
      intro h
      simp only [Except.error.injEq, Prod.mk.injEq] at h
      obtain ⟨h1, _⟩ := h
      subst h1
      exact summarizeChunk000_error_shape hsc
    | ok r =>
      cases hrest : summarizeAll000 oracle rest (k + 1) with
      | error e =>
        intro h
        obtain ⟨em, en⟩ := e
        simp only [Except.error.injEq, Prod.mk.injEq] at h
        obtain ⟨h1, _⟩ := h
        subst h1
        exact ih hrest
      | ok q =>
        obtain ⟨ss, itk, otk, k2⟩ := q
        intro h
        exact absurd h (by simp)

/-- C9 counterexample. The claim states that the error propagating out of
the reducer carries the index of the failing chunk and the recursion level
as diagnostic context. It does not: two runs on `t24` (3 chunks at level 1)
in which the failing call is the 2nd (`failAt 1`) respectively the 3rd
(`failAt 2`) produce the *identical* error message
`Failed to summarize chunk: boom`; only the instrumentation counter (2 vs 3
calls made) distinguishes them, and that counter is not part of the source's
propagated `Error`. Hence the chunk index is not retrievable from the error,
and no level information is attached either (the source attaches level only
to `log.info` lines, not to the thrown `Error`). -/
theorem c9_counterexample_same_error_different_chunk :
    reduce000 (failAt 1) 8 0 30 5 t24 1 0 =
      some (Except.error (failedChunkMsg ++ boomMsg, 2))
    ∧ reduce000 (failAt 2) 8 0 30 5 t24 1 0 =
      some (Except.error (failedChunkMsg ++ boomMsg, 3)) := by
  constructor
  · rfl
  · rfl

/-- C9, amended. The error that propagates out of `recursiveSummarize`
(part_000) for a failing external call — at any level, any chunk — is the
descriptive message `Failed to summarize chunk: <cause>`: the original cause
is retrievable as its suffix, but no chunk index and no recursion level are
attached to the propagated error. -/
theorem c9_error_carries_cause :
    ∀ (oracle : Oracle) (cs ov cf fuel : Nat) (text : List Char) (level k : Nat)
      (m : Msg) (n : Nat),
    reduce000 oracle cs ov cf fuel text level k = some (Except.error (m, n)) →
    ∃ cause, m = failedChunkMsg ++ cause := by
  intro oracle cs ov cf fuel
  induction fuel with
  | zero => intro text level k m n h; simp [reduce000] at h
  | succ f ih =>
    intro text level k m n h
    rw [reduce000] at h
    by_cases hbase : 4 * estimateTokenCount text ≤ cs
    · rw [if_pos hbase] at h
      simp only [Option.some.injEq] at h
      split at h
      · rename_i m2 hsc
        simp only [Except.error.injEq, Prod.mk.injEq] at h
        obtain ⟨h1, _⟩ := h
        subst h1
        exact summarizeChunk000_error_shape hsc
      · exact absurd h (by simp)
    · rw [if_neg hbase] at h
      split at h
      · exact absurd h (by simp)
      · rename_i chunks hct
        split at h
        · rename_i e hall
          obtain ⟨em, en⟩ := e
          simp only [Option.some.injEq, Except.error.injEq, Prod.mk.injEq] at h
          obtain ⟨h1, _⟩ := h
          subst h1
          exact summarizeAll000_error_shape hall
        · rename_i ss itk otk k2 hall
          dsimp only at h
          split at h
          · rename_i hcond
            exact absurd hcond.2 (by omega)
          · simp only [Option.some.injEq] at h
            split at h
            · rename_i m2 hsc2
              simp only [Except.error.injEq, Prod.mk.injEq] at h
              obtain ⟨h1, _⟩ := h
              subst h1
              exact summarizeChunk000_error_shape hsc2
            · exact absurd h (by simp)

/-- C9 witness: the amended theorem applied to the concrete failing run
`failAt 1` on `t24`, whose propagated message is
`Failed to summarize chunk: boom`. -/
theorem c9_error_carries_cause_witness :
    ∃ cause, failedChunkMsg ++ boomMsg = failedChunkMsg ++ cause :=
  c9_error_carries_cause (failAt 1) 8 0 30 5 t24 1 0 (failedChunkMsg ++ boomMsg) 2 rfl

/-! ### Claim C10 -/

/-- The externally compared observables of part_000's reducer:
summary, levels, chunks, and the call counter. -/
def proj000 (r : Option (Except (Msg × Nat) (Res000 × Nat))) :
    Option (Except (Msg × Nat) ((List Char × Nat × Nat) × Nat)) :=
  r.map fun e => e.map fun p => ((p.1.summary, p.1.levels, p.1.chunks), p.2)

/-- The same observables of part_001's reducer. -/
def proj001 (r : Option (Except (Msg × Nat) (Res001 × Nat))) :
    Option (Except (Msg × Nat) ((List Char × Nat × Nat) × Nat)) :=
  r.map fun e => e.map fun p => ((p.1.summary, p.1.levels, p.1.chunks), p.2)

/-- part_001's `summarizeChunk` is part_000's with the token counts
discarded. -/
theorem summarizeChunk001_eq_map (r : RawResponse) :
    summarizeChunk001 r = (summarizeChunk000 r).map SCRes.summary := by
  cases r with
  | error m => rfl
  | ok p =>
    obtain ⟨c, i, o⟩ := p
    rw [summarizeChunk000, summarizeChunk001]
    by_cases hemp : (trimL c).isEmpty
    · rw [if_pos hemp, if_pos hemp]
      rfl
    · rw [if_neg hemp, if_neg hemp]
      rfl

/-- C10 counterexample. The claim states that the two reducer variants,
given the same input, options and deterministic responses, return the same
summary, levels and chunks. On `t24` with `chunkSize = 8`,
`chunkOverlap = 0` and the fixed stub `"s"` (a single level, 3 chunks plus
one combine call in both variants) they disagree: part_000 reports
`chunks = 0` (its `chunks.length = 0` clearing) while part_001 reports
`chunks = 3`. -/
theorem c10_counterexample_variants_disagree :
    proj000 (reduce000 stub1 8 0 30 5 t24 1 0) ≠ proj001 (reduce001 stub1 8 0 30 5 t24 1 0) := by
  intro h
  have e1 : proj000 (reduce000 stub1 8 0 30 5 t24 1 0) =
      some (Except.ok ((("s".data, 1, 0)), 4)) := rfl
  have e2 : proj001 (reduce001 stub1 8 0 30 5 t24 1 0) =
      some (Except.ok ((("s".data, 1, 3)), 4)) := rfl
  rw [e1, e2] at h
  simp at h

/-- C10, amended. The two reducer variants agree — same summary, same
levels, same chunks count (and same call counter) — whenever the input text
fits the base case (`estimateTokenCount(text) ≤ chunkSize / 4`), for every
oracle, level and fuel. On multi-chunk inputs they disagree in general:
part_000 reports `chunksProcessed = 0` and never recurses (its cleared
`chunks.length` makes the recursion guard false), while part_001 reports the
actual per-level counts and recursion depth. -/
theorem c10_variants_agree_on_base_case :
    ∀ (oracle : Oracle) (cs ov cf fuel : Nat) (text : List Char) (level k : Nat),
    4 * estimateTokenCount text ≤ cs →
    proj000 (reduce000 oracle cs ov cf fuel text level k) =
      proj001 (reduce001 oracle cs ov cf fuel text level k) := by
  intro oracle cs ov cf fuel text level k hbase
  cases fuel with
  | zero => rfl
  | succ n =>
    rw [reduce000, reduce001, if_pos hbase, if_pos hbase,
      summarizeChunk001_eq_map (oracle k text)]
    cases hsc : summarizeChunk000 (oracle k text) with
    | error m => rfl
    | ok r => rfl

/-- C10 witness: both variants on the base-case input `t4` (4 characters,
`chunkSize = 8`) with the fixed stub. -/
theorem c10_variants_agree_witness :
    proj000 (reduce000 stub1 8 0 5 3 t4 1 0) = proj001 (reduce001 stub1 8 0 5 3 t4 1 0) :=
  c10_variants_agree_on_base_case stub1 8 0 5 3 t4 1 0 (by decide)

/-! ### Claim C6 -/

/-- C6 counterexample. The claim asserts
`estimateTokenCount(text) ≤ chunkSize / 4 ⟺ text.length ≤ chunkSize` for
every text and every positive `chunkSize`. For a 3-character text and
`chunkSize = 3` the right side holds (`3 ≤ 3`, the text fits in one chunk)
but the left side fails: `estimateTokenCount = ⌈3/4⌉ = 1 > 3/4 = maxTokens`,
so the reducer does not take the direct-summarization base case. -/
theorem c6_counterexample_len3_cs3 :
    ¬ (((estimateTokenCount (List.replicate 3 't') : ℚ) ≤ maxTokensQ 3) ↔
       (List.replicate 3 't').length ≤ 3) := by
  intro h
  have h1 := h.mpr (by simp)
  rw [maxTokensQ] at h1
  norm_num [estimateTokenCount] at h1

/-- C6, amended. The reducer's base-case test is the exact float comparison
`estimateTokenCount(text) ≤ chunkSize / 4`, equivalently the integer test
`4 * estimateTokenCount(text) ≤ chunkSize` used in the embedding; it holds
exactly when `text.length ≤ 4 * ⌊chunkSize / 4⌋`. This coincides with
"fits in one chunk" (`text.length ≤ chunkSize`) precisely when `chunkSize`
is a multiple of 4 — e.g. the default 4000 — and is strictly stronger
otherwise. -/
theorem c6_base_condition_characterization :
    ∀ (text : List Char) (cs : Nat),
    ((4 * estimateTokenCount text ≤ cs) ↔ ((estimateTokenCount text : ℚ) ≤ maxTokensQ cs))
    ∧ (((estimateTokenCount text : ℚ) ≤ maxTokensQ cs) ↔ text.length ≤ 4 * (cs / 4))
    ∧ (cs % 4 = 0 → (((estimateTokenCount text : ℚ) ≤ maxTokensQ cs) ↔ text.length ≤ cs)) := by
  intro text cs
  have key : ((estimateTokenCount text : ℚ) ≤ maxTokensQ cs) ↔ 4 * estimateTokenCount text ≤ cs := by
    rw [maxTokensQ, le_div_iff₀ (by norm_num : (0 : ℚ) < 4)]
    rw [show ((estimateTokenCount text : ℚ) * 4) = ((estimateTokenCount text * 4 : ℕ) : ℚ) by
      push_cast; ring]
    rw [Nat.cast_le]
    omega
  refine ⟨key.symm, ?_, ?_⟩
  · rw [key]
    unfold estimateTokenCount
    omega
  · intro h4
    rw [key]
    unfold estimateTokenCount
    omega

/-- C6 witness: at the default `chunkSize = 4000` (a multiple of 4) the
base-case test does coincide with `text.length ≤ chunkSize`. -/
theorem c6_base_condition_witness :
    ((estimateTokenCount t4 : ℚ) ≤ maxTokensQ 4000) ↔ t4.length ≤ 4000 :=
  (c6_base_condition_characterization t4 4000).2.2 (by decide)

end Summarizer
